import Mathlib

/-!
Verification of the grepr line-oriented pattern-search utility
(`src/lib.rs`) against its specification.

Modelling conventions:
* Rust `String` / byte buffers are modelled as `List Char` (`Str`).  Regex
  byte offsets returned by `find` are always on character boundaries of the
  haystack, so a character-level model is faithful for the claims at hand.
* A compiled `Regex` is modelled abstractly as a `find` function returning
  the leftmost match span `(start, end)`; `is_match` is `find`-is-some,
  which is exactly the relation the regex crate guarantees.
* The filesystem and stdin are modelled by a `World` record supplying
  `fs::metadata`, the `WalkDir` file listing, and `File::open` results.
* An opened readable stream is its byte content plus an optional I/O error
  that the underlying reader raises once the content is exhausted
  (`read_line` then returns `Err`), matching `BufRead::read_line`.
* Terminal colouring (`.green()`) is a purely cosmetic wrapper and is
  dropped from the modelled output text.
* A `panic!` (from `.unwrap()` on `None`) is modelled by the whole `run`
  returning `none`; `some (out, errs)` models a normal `Ok(())` return
  with `out` the stdout units and `errs` the stderr lines, in order.
-/

namespace Grepr

/-- Byte/character strings of the Rust source, modelled as lists of
characters. -/
abbrev Str := List Char

/-- A compiled regular expression, modelled by its leftmost-match search
function: `find s` returns `some (start, stop)` for the leftmost match of
the pattern in `s`, or `none` when the pattern does not match `s`. -/
structure Pattern where
  find : Str → Option (Nat × Nat)

/-- `Regex::is_match`: true exactly when `find` locates a match, which is
the contract of the regex crate. -/
def Pattern.is_match (p : Pattern) (s : Str) : Bool :=
  (p.find s).isSome

/-- An opened readable stream: the bytes it will yield, plus an optional
I/O error the underlying reader raises after those bytes are consumed
(`none` means clean end-of-file). -/
structure Stream where
  data : Str
  err : Option Str
deriving DecidableEq

/-- What `fs::metadata` reports a path to be: a regular file, a directory,
or something else (device node, broken symlink, ...). -/
inductive FileKind where
  | file
  | dir
  | other
deriving DecidableEq

/-- The ambient filesystem and standard input: `meta` models
`fs::metadata` (error value = the system error message), `walk` models the
`WalkDir` traversal already filtered to ok entries of file type (their
`display` strings, in walk order), `openf` models `File::open` on a
non-stdin path, and `stdin` is the process standard-input stream. -/
structure World where
  meta : Str → Except Str FileKind
  walk : Str → List Str
  openf : Str → Except Str Stream
  stdin : Stream

/-- `Config`: the parsed invocation (compiled pattern, file list, flags),
as built by `get_args`. -/
structure Config where
  pattern : Pattern
  files : List Str
  recursive : Bool
  count : Bool
  invert_match : Bool

/-- `find_files` from the source: for each requested path in order, the
stdin sentinel `"-"` resolves to itself unconditionally; otherwise the
metadata is consulted: a directory yields the walk's files when
`recursive`, else the single error `"<path> is a directory"`; a regular
file resolves to itself; anything else yields no outcome; a metadata
failure yields the error `"<path>: <error>"`. -/
def find_files (w : World) (files : List Str) (recursive : Bool) :
    List (Except Str Str) :=
  match files with
  | [] => []
  | path :: rest =>
    (if path = ['-'] then [Except.ok path]
     else
       match w.meta path with
       | Except.ok k =>
         match k with
         | FileKind.dir =>
           if recursive then (w.walk path).map Except.ok
           else [Except.error (path ++ (" is a directory").data)]
         | FileKind.file => [Except.ok path]
         | FileKind.other => []
       | Except.error e => [Except.error (path ++ (": ").data ++ e)])
      ++ find_files w rest recursive

/-- The match/invert-match selection condition of `find_lines`, verbatim:
`(pattern.is_match(&line) && !invert_match) ||
 (!pattern.is_match(&line) && invert_match)`. -/
def matchPred (p : Pattern) (invert_match : Bool) (line : Str) : Bool :=
  (p.is_match line && !invert_match) || (!p.is_match line && invert_match)

/-- The `find_lines` read loop with `read_line` inlined character by
character: `cur` is the (reversed) portion of the current line read so
far.  A newline completes a line (terminator retained); exhausting the
data with a clean EOF completes a final unterminated line (or, with `cur`
empty, is the zero-byte read that breaks the loop); exhausting the data
with a pending I/O error makes the active `read_line` call return `Err`,
which `?` propagates, discarding all collected matches. -/
def findLinesAux (p : Pattern) (invert_match : Bool) :
    Str → Str → Option Str → Except Str (List Str)
  | cur, [], none =>
    if cur = [] then Except.ok []
    else if matchPred p invert_match cur.reverse then Except.ok [cur.reverse]
    else Except.ok []
  | _, [], some e => Except.error e
  | cur, c :: cs, err =>
    if c = '\n' then
      match findLinesAux p invert_match [] cs err with
      | Except.error e => Except.error e
      | Except.ok rest =>
        Except.ok
          (if matchPred p invert_match (cur.reverse ++ ['\n']) then
            (cur.reverse ++ ['\n']) :: rest
          else rest)
    else findLinesAux p invert_match (c :: cur) cs err

/-- `find_lines` from the source: scan the stream line by line, keeping
each line (terminator retained) that satisfies the match/invert
condition; an I/O failure aborts the scan with that error. -/
def find_lines (data : Str) (err : Option Str) (p : Pattern)
    (invert_match : Bool) : Except Str (List Str) :=
  findLinesAux p invert_match [] data err

/-- Specification-side line decomposition of a byte stream: the lines in
stream order, each retaining its trailing newline, with a final
unterminated line kept as-is (`cur` is the reversed line in progress). -/
def splitLinesAux : Str → Str → List Str
  | cur, [] => if cur = [] then [] else [cur.reverse]
  | cur, c :: cs =>
    if c = '\n' then (cur.reverse ++ ['\n']) :: splitLinesAux [] cs
    else splitLinesAux (c :: cur) cs

/-- The lines of a stream, in order, terminators retained. -/
def linesOf (data : Str) : List Str :=
  splitLinesAux [] data

/-- `open` from the source: the stdin sentinel opens standard input
(always succeeding at open time); any other name is opened through the
filesystem and may fail. -/
def openSrc (w : World) (filename : Str) : Except Str Stream :=
  if filename = ['-'] then Except.ok w.stdin else w.openf filename

/-- The highlighting split performed in `run` for a matched line:
`find` the match, `split_off` at its start, `find` again in the tail,
`split_off` at that match's end, yielding
(text before the match, highlighted text, remainder).  Either `find`
returning `None` makes the corresponding `.unwrap()` panic, modelled as
`none`. -/
def highlight (p : Pattern) (line : Str) : Option (Str × Str × Str) :=
  match p.find line with
  | none => none
  | some (init, _) =>
    let front := line.take init
    let rest := line.drop init
    match p.find rest with
    | none => none
    | some (_, stop) => some (front, rest.take stop, rest.drop stop)

/-- One logical stdout line as `run` emits it: the optional path
annotation text written first (when `num_files > 1`), then the payload
text.  The bytes written are `pfx.getD [] ++ payload`. -/
structure OutLine where
  pfx : Option Str
  payload : Str
deriving DecidableEq

/-- Printing of one selected line in non-count mode: when `invert_match`
is false the line is split around the match (panicking `unwrap`s
modelled by `none`) and annotated with `"<path>: "`; when true the
`print` closure emits it with the `"<path>:"` annotation.  The annotation
appears only when `num_files > 1`. -/
def printLine (nf : Nat) (p : Pattern) (invert_match : Bool)
    (fname line : Str) : Option OutLine :=
  if !invert_match then
    match highlight p line with
    | none => none
    | some (a, b, c) =>
      some ⟨if 1 < nf then some (fname ++ (": ").data) else none, a ++ b ++ c⟩
  else
    some ⟨if 1 < nf then some (fname ++ (":").data) else none, line⟩

/-- The per-file printing loop over the selected lines; a panic in any
line aborts the whole run (`none`). -/
def printAll (nf : Nat) (p : Pattern) (invert_match : Bool) (fname : Str) :
    List Str → Option (List OutLine)
  | [] => some []
  | l :: ls =>
    match printLine nf p invert_match fname l with
    | none => none
    | some u =>
      match printAll nf p invert_match fname ls with
      | none => none
      | some us => some (u :: us)

/-- Decimal rendering of a count, as `format!` prints a `usize`. -/
def natStr (n : Nat) : Str :=
  (Nat.repr n).data

/-- The body of `run`'s per-outcome loop: a failed outcome goes to stderr;
a resolved path is opened (open failure goes to stderr as
`"<path>: <error>"`) and scanned (scan failure goes to stderr); a
successful scan emits either the single count line
`"<count>\n"` (annotated `"<path>:"` when `num_files > 1`) or the
selected lines through `printLine`. -/
def processEntry (w : World) (nf : Nat) (p : Pattern)
    (count invert_match : Bool) :
    Except Str Str → Option (List OutLine × List Str)
  | Except.error e => some ([], [e])
  | Except.ok filename =>
    match openSrc w filename with
    | Except.error e => some ([], [filename ++ (": ").data ++ e])
    | Except.ok s =>
      match find_lines s.data s.err p invert_match with
      | Except.error e => some ([], [e])
      | Except.ok ms =>
        if count then
          some ([⟨if 1 < nf then some (filename ++ (":").data) else none,
                  natStr ms.length ++ ['\n']⟩], [])
        else
          match printAll nf p invert_match filename ms with
          | none => none
          | some us => some (us, [])

/-- `run`'s loop over all path outcomes, concatenating stdout units and
stderr lines in order; a panic anywhere aborts the rest. -/
def runLoop (w : World) (nf : Nat) (p : Pattern)
    (count invert_match : Bool) :
    List (Except Str Str) → Option (List OutLine × List Str)
  | [] => some ([], [])
  | e :: rest =>
    match processEntry w nf p count invert_match e with
    | none => none
    | some (o1, r1) =>
      match runLoop w nf p count invert_match rest with
      | none => none
      | some (o2, r2) => some (o1 ++ o2, r1 ++ r2)

/-- `run` from the source: resolve the paths, let `num_files` be the
length of the whole outcome list, then process every outcome in order.
`some` models the unconditional `Ok(())` return; `none` models a panic. -/
def run (w : World) (cfg : Config) : Option (List OutLine × List Str) :=
  let entries := find_files w cfg.files cfg.recursive
  runLoop w entries.length cfg.pattern cfg.count cfg.invert_match entries

/-- The number of `Resolved` (Ok) outcomes in a path-outcome list. -/
def countOk (entries : List (Except Str Str)) : Nat :=
  (entries.filter fun e =>
    match e with
    | Except.ok _ => true
    | Except.error _ => false).length

/-- Leftmost occurrence search for a literal string `t`: the `find` of the
regex the regex crate compiles from the escaped literal `t`. `i` is the
offset of the current suffix in the original haystack. -/
def litFindAux (t : Str) : Nat → Str → Option (Nat × Nat)
  | i, [] => if t.isPrefixOf [] then some (i, i + t.length) else none
  | i, c :: cs =>
    if t.isPrefixOf (c :: cs) then some (i, i + t.length)
    else litFindAux t (i + 1) cs

/-- The compiled pattern for a literal string `t` (leftmost-match
semantics). -/
def litPat (t : Str) : Pattern :=
  ⟨fun s => litFindAux t 0 s⟩

/-- Word characters for the regex crate's boundary assertions. -/
def isWordChar (c : Char) : Bool :=
  c.isAlphanum || c == '_'

/-- `find` of the compiled regex `\Box` (a non-word-boundary assertion
followed by the literal `ox`), per the regex crate's semantics: a match
starts at a position that is not a word boundary and continues with
`ox`.  `prev` is the wordness of the character before the current
position (false at the start of the haystack), `i` the position. -/
def boxFindAux (prev : Bool) (i : Nat) : Str → Option (Nat × Nat)
  | [] => none
  | c :: cs =>
    if prev == isWordChar c && c == 'o' &&
        (match cs with
         | 'x' :: _ => true
         | _ => false) then
      some (i, i + 2)
    else boxFindAux (isWordChar c) (i + 1) cs

/-- The compiled pattern for the regex `\Box`. -/
def boxPat : Pattern :=
  ⟨fun s => boxFindAux false 0 s⟩

/-- Whether a path outcome fails to produce a scan result: the outcome
itself failed, or the open failed, or the scan failed.  Mirrors the
error branches of `run`'s per-outcome dispatch. -/
def entryFails (w : World) (p : Pattern) (inv : Bool) :
    Except Str Str → Bool
  | Except.error _ => true
  | Except.ok f =>
    match openSrc w f with
    | Except.error _ => true
    | Except.ok s =>
      match find_lines s.data s.err p inv with
      | Except.error _ => true
      | Except.ok _ => false

/-- The stderr line `run` writes for a failing path outcome (junk `[]`
for a succeeding one, where it is never used). -/
def errLineOf (w : World) (p : Pattern) (inv : Bool) :
    Except Str Str → Str
  | Except.error e => e
  | Except.ok f =>
    match openSrc w f with
    | Except.error e => f ++ (": ").data ++ e
    | Except.ok s =>
      match find_lines s.data s.err p inv with
      | Except.error e => e
      | Except.ok _ => []

/-- Concrete world: path `a` does not exist, path `b` is a regular file
containing `"x\n"`. -/
def wOneGood : World :=
  ⟨fun s => if s = ['b'] then Except.ok FileKind.file
            else Except.error ("nf").data,
   fun _ => [],
   fun s => if s = ['b'] then Except.ok ⟨['x', '\n'], none⟩
            else Except.error ("e").data,
   ⟨[], none⟩⟩

/-- Concrete invocation: pattern `x`, files `a` and `b`, count mode. -/
def cfgCount : Config :=
  ⟨litPat ['x'], [['a'], ['b']], false, true, false⟩

/-- Concrete world: path `t` is a regular file containing `"fox\n"`. -/
def wBox : World :=
  ⟨fun s => if s = ['t'] then Except.ok FileKind.file
            else Except.error ("nf").data,
   fun _ => [],
   fun s => if s = ['t'] then Except.ok ⟨['f', 'o', 'x', '\n'], none⟩
            else Except.error ("e").data,
   ⟨[], none⟩⟩

/-- Concrete invocation: pattern `\Box`, file `t`, plain print mode. -/
def cfgBox : Config :=
  ⟨boxPat, [['t']], false, false, false⟩

/-- Concrete world in which every path is a directory. -/
def wDir : World :=
  ⟨fun _ => Except.ok FileKind.dir, fun _ => [],
   fun _ => Except.error ("e").data, ⟨[], none⟩⟩

/-- Concrete invocation listing two directory paths, non-recursive. -/
def cfgDirs : Config :=
  ⟨litPat ['x'], [['d'], ['q']], false, false, false⟩

/-- Concrete world in which every path is neither file nor directory. -/
def wOther : World :=
  ⟨fun _ => Except.ok FileKind.other, fun _ => [],
   fun _ => Except.error ("e").data, ⟨[], none⟩⟩

/-- Concrete world: path `b` is an empty regular file. -/
def wEmpty : World :=
  ⟨fun s => if s = ['b'] then Except.ok FileKind.file
            else Except.error ("nf").data,
   fun _ => [],
   fun s => if s = ['b'] then Except.ok ⟨[], none⟩
            else Except.error ("e").data,
   ⟨[], none⟩⟩

/-- Concrete world: path `f` opens, yields `"a\n"` and then raises the
I/O error `"e"`. -/
def wErrMid : World :=
  ⟨fun s => if s = ['f'] then Except.ok FileKind.file
            else Except.error ("nf").data,
   fun _ => [],
   fun s => if s = ['f'] then Except.ok ⟨['a', '\n'], some ("e").data⟩
            else Except.error ("e").data,
   ⟨[], none⟩⟩

/-- A scan whose stream ends in an I/O error always returns that error,
whatever was collected before. -/
theorem findLinesAux_some_err (p : Pattern) (inv : Bool) :
    ∀ (data cur : Str) (e : Str),
      findLinesAux p inv cur data (some e) = Except.error e := by
  intro data
  induction data with
  | nil => intro cur e; rfl
  | cons c cs ih =>
    intro cur e
    by_cases hc : c = '\n'
    · subst hc
      simp [findLinesAux, ih [] e]
    · simp [findLinesAux, hc, ih (c :: cur) e]

/-- A scan with a clean end-of-file returns exactly the selected
subsequence of the stream's lines, in order. -/
theorem findLinesAux_none_eq_filter (p : Pattern) (inv : Bool) :
    ∀ (data cur : Str),
      findLinesAux p inv cur data none =
        Except.ok ((splitLinesAux cur data).filter (matchPred p inv)) := by
  intro data
  induction data with
  | nil =>
    intro cur
    by_cases h : cur = []
    · simp [findLinesAux, splitLinesAux, h]
    · by_cases hm : matchPred p inv cur.reverse
      · simp [findLinesAux, splitLinesAux, h, hm]
      · simp [findLinesAux, splitLinesAux, h, hm]
  | cons c cs ih =>
    intro cur
    by_cases hc : c = '\n'
    · subst hc
      by_cases hm : matchPred p inv (cur.reverse ++ ['\n'])
      · simp [findLinesAux, splitLinesAux, ih [], hm]
      · simp [findLinesAux, splitLinesAux, ih [], hm]
    · simp only [findLinesAux, if_neg hc, ih (c :: cur)]
      simp [splitLinesAux, hc]

/-- C2: for every input stream, pattern and invert flag, `find_lines`
returns exactly the subsequence of the stream's lines, in stream order,
for which (the pattern matches and invert is false) or (the pattern does
not match and invert is true); every other line is excluded. -/
theorem c2_find_lines_is_filter (data : Str) (p : Pattern) (inv : Bool) :
    find_lines data none p inv =
      Except.ok ((linesOf data).filter (matchPred p inv)) :=
  findLinesAux_none_eq_filter p inv data []

/-- C6: a path whose metadata reports a directory, resolved with
`recursive = false`, yields exactly one `Failed` outcome whose reason is
`"<dir> is a directory"`, and no `Resolved` outcome. -/
theorem c6_dir_without_recursive_fails (w : World) (path : Str)
    (h1 : path ≠ ['-']) (h2 : w.meta path = Except.ok FileKind.dir) :
    find_files w [path] false =
      [Except.error (path ++ (" is a directory").data)] := by
  simp [find_files, h1, h2]

theorem c6_dir_without_recursive_fails_witness :
    find_files wDir [['d']] false =
      [Except.error (['d'] ++ (" is a directory").data)] :=
  c6_dir_without_recursive_fails wDir ['d'] (by decide) rfl

/-- C10: a requested path (not the stdin sentinel) whose metadata lookup
succeeds but reports neither a regular file nor a directory contributes
no outcome at all, for both values of the recursive flag. -/
theorem c10_other_kind_no_outcome (w : World) (path : Str)
    (h1 : path ≠ ['-']) (h2 : w.meta path = Except.ok FileKind.other) :
    ∀ (recursive : Bool) (rest : List Str),
      find_files w (path :: rest) recursive = find_files w rest recursive := by
  intro r rest
  simp [find_files, h1, h2]

theorem c10_other_kind_no_outcome_witness :
    find_files wOther [['p'], ['-']] false = find_files wOther [['-']] false :=
  c10_other_kind_no_outcome wOther ['p'] (by decide) rfl false [['-']]

/-- C8: a read failure makes `find_lines` return the error, discarding
every match collected before it; in `run`, a file whose scan fails emits
no stdout line and exactly one stderr line, and (by `runLoop`'s
recursion) processing continues with the remaining outcomes. -/
theorem c8_scan_failure_all_or_nothing :
    (∀ (data e : Str) (p : Pattern) (inv : Bool),
        find_lines data (some e) p inv = Except.error e) ∧
    (∀ (w : World) (nf : Nat) (p : Pattern) (cnt inv : Bool) (f d e : Str),
        openSrc w f = Except.ok ⟨d, some e⟩ →
        processEntry w nf p cnt inv (Except.ok f) = some ([], [e])) := by
  constructor
  · intro data e p inv
    exact findLinesAux_some_err p inv data [] e
  · intro w nf p cnt inv f d e h
    simp [processEntry, h, find_lines, findLinesAux_some_err]

theorem c8_scan_failure_all_or_nothing_witness :
    find_lines ['a', '\n'] (some ("e").data) (litPat ['a']) false =
      Except.error (("e").data) ∧
    processEntry wErrMid 1 (litPat ['a']) false false (Except.ok ['f']) =
      some ([], [("e").data]) :=
  ⟨c8_scan_failure_all_or_nothing.1 ['a', '\n'] (("e").data) (litPat ['a']) false,
   c8_scan_failure_all_or_nothing.2 wErrMid 1 (litPat ['a']) false false
     ['f'] ['a', '\n'] (("e").data) rfl⟩

/-- Any stdout line produced by `printLine` carries the path annotation
exactly when `num_files > 1`. -/
theorem printLine_pfx {nf : Nat} {p : Pattern} {inv : Bool} {f l : Str}
    {u : OutLine} (h : printLine nf p inv f l = some u) :
    u.pfx.isSome = decide (1 < nf) := by
  unfold printLine at h
  cases inv with
  | true =>
    simp only [Bool.not_true, Bool.false_eq_true, if_false,
      Option.some.injEq] at h
    by_cases hn : 1 < nf <;> simp [← h, hn]
  | false =>
    simp only [Bool.not_false, if_true] at h
    cases hh : highlight p l with
    | none => rw [hh] at h; exact absurd h (by simp)
    | some t =>
      obtain ⟨a, b, c⟩ := t
      rw [hh] at h
      simp only [Option.some.injEq] at h
      by_cases hn : 1 < nf <;> simp [← h, hn]

/-- Any stdout line produced by the per-file printing loop carries the
path annotation exactly when `num_files > 1`. -/
theorem printAll_pfx (nf : Nat) (p : Pattern) (inv : Bool) (f : Str) :
    ∀ (ms : List Str) (us : List OutLine),
      printAll nf p inv f ms = some us →
      ∀ u ∈ us, u.pfx.isSome = decide (1 < nf) := by
  intro ms
  induction ms with
  | nil =>
    intro us h u hu
    simp only [printAll, Option.some.injEq] at h
    subst h
    simp at hu
  | cons l ls ih =>
    intro us h u hu
    unfold printAll at h
    cases hl : printLine nf p inv f l with
    | none => rw [hl] at h; exact absurd h (by simp)
    | some v =>
      rw [hl] at h
      cases hr : printAll nf p inv f ls with
      | none => rw [hr] at h; exact absurd h (by simp)
      | some vs =>
        rw [hr] at h
        simp only [Option.some.injEq] at h
        subst h
        rcases List.mem_cons.mp hu with rfl | hu2
        · exact printLine_pfx hl
        · exact ih vs hr u hu2

/-- Any stdout line produced for one path outcome carries the path
annotation exactly when `num_files > 1`. -/
theorem processEntry_pfx (w : World) (nf : Nat) (p : Pattern)
    (cnt inv : Bool) (e : Except Str Str) (o : List OutLine) (r : List Str)
    (h : processEntry w nf p cnt inv e = some (o, r)) :
    ∀ u ∈ o, u.pfx.isSome = decide (1 < nf) := by
  intro u hu
  cases e with
  | error e' =>
    simp only [processEntry, Option.some.injEq, Prod.mk.injEq] at h
    rw [← h.1] at hu
    simp at hu
  | ok f =>
    simp only [processEntry] at h
    cases ho : openSrc w f with
    | error e' =>
      rw [ho] at h
      simp only [Option.some.injEq, Prod.mk.injEq] at h
      rw [← h.1] at hu
      simp at hu
    | ok s =>
      rw [ho] at h
      simp only [] at h
      cases hs : find_lines s.data s.err p inv with
      | error e' =>
        rw [hs] at h
        simp only [Option.some.injEq, Prod.mk.injEq] at h
        rw [← h.1] at hu
        simp at hu
      | ok ms =>
        rw [hs] at h
        cases cnt with
        | true =>
          simp only [if_true, Option.some.injEq, Prod.mk.injEq] at h
          rw [← h.1] at hu
          simp only [List.mem_singleton] at hu
          subst hu
          by_cases hn : 1 < nf <;> simp [hn]
        | false =>
          simp only [Bool.false_eq_true, if_false] at h
          cases hp : printAll nf p inv f ms with
          | none => rw [hp] at h; exact absurd h (by simp)
          | some us =>
            rw [hp] at h
            simp only [Option.some.injEq, Prod.mk.injEq] at h
            rw [← h.1] at hu
            exact printAll_pfx nf p inv f ms us hp u hu

/-- Any stdout line produced by `run`'s loop carries the path annotation
exactly when `num_files > 1`. -/
theorem runLoop_pfx (w : World) (nf : Nat) (p : Pattern) (cnt inv : Bool) :
    ∀ (es : List (Except Str Str)) (out : List OutLine) (errs : List Str),
      runLoop w nf p cnt inv es = some (out, errs) →
      ∀ u ∈ out, u.pfx.isSome = decide (1 < nf) := by
  intro es
  induction es with
  | nil =>
    intro out errs h u hu
    simp only [runLoop, Option.some.injEq, Prod.mk.injEq] at h
    rw [← h.1] at hu
    simp at hu
  | cons e rest ih =>
    intro out errs h u hu
    unfold runLoop at h
    cases hp : processEntry w nf p cnt inv e with
    | none => rw [hp] at h; exact absurd h (by simp)
    | some pr =>
      obtain ⟨o1, r1⟩ := pr
      rw [hp] at h
      cases hq : runLoop w nf p cnt inv rest with
      | none => rw [hq] at h; exact absurd h (by simp)
      | some qr =>
        obtain ⟨o2, r2⟩ := qr
        rw [hq] at h
        simp only [Option.some.injEq, Prod.mk.injEq] at h
        rw [← h.1] at hu
        rcases List.mem_append.mp hu with hu1 | hu2
        · exact processEntry_pfx w nf p cnt inv e o1 r1 hp u hu1
        · exact ih o2 r2 hq u hu2

/-- C1 counterexample: with one nonexistent path `a` and one resolved
file `b`, exactly one outcome is `Resolved`, yet the single output line
is still path-annotated, because `run` takes `num_files` from the length
of the whole outcome list, `Failed` outcomes included. -/
theorem c1_resolved_count_counterexample :
    countOk (find_files wOneGood cfgCount.files cfgCount.recursive) = 1 ∧
    run wOneGood cfgCount =
      some ([⟨some (['b'] ++ (":").data), natStr 1 ++ ['\n']⟩],
            [['a'] ++ (": ").data ++ ("nf").data]) := by
  exact ⟨rfl, rfl⟩

/-- C1 (amended): `run` computes `num_files` as the length of the whole
outcome list returned by the path resolver, `Failed` outcomes included,
and every output line carries the path annotation exactly when that
length exceeds one. -/
theorem c1_prefix_iff_many_outcomes (w : World) (cfg : Config)
    (out : List OutLine) (errs : List Str)
    (h : run w cfg = some (out, errs)) :
    ∀ u ∈ out, u.pfx.isSome =
      decide (1 < (find_files w cfg.files cfg.recursive).length) := by
  unfold run at h
  exact runLoop_pfx w (find_files w cfg.files cfg.recursive).length
    cfg.pattern cfg.count cfg.invert_match
    (find_files w cfg.files cfg.recursive) out errs h

theorem c1_prefix_iff_many_outcomes_witness :
    (⟨some (['b'] ++ (":").data), natStr 1 ++ ['\n']⟩ : OutLine).pfx.isSome =
      decide (1 < (find_files wOneGood cfgCount.files
        cfgCount.recursive).length) :=
  c1_prefix_iff_many_outcomes wOneGood cfgCount
    [⟨some (['b'] ++ (":").data), natStr 1 ++ ['\n']⟩]
    [['a'] ++ (": ").data ++ ("nf").data] rfl
    ⟨some (['b'] ++ (":").data), natStr 1 ++ ['\n']⟩ (by simp)

/-- C3 counterexample: with the (realizable) pattern for the literal
`"x\n"`, the span located for the line `"fox\n"` ends on the terminator,
so the split puts the terminator in the matched text and leaves an empty
suffix — the terminator does not land in the suffix. -/
theorem c3_terminator_in_suffix_counterexample :
    highlight (litPat ['x', '\n']) ['f', 'o', 'x', '\n'] =
      some (['f', 'o'], ['x', '\n'], []) ∧ '\n' ∉ ([] : Str) :=
  ⟨rfl, by simp⟩

/-- C3 (amended): whenever the highlighting split succeeds, the three
parts concatenate back to the original line byte-for-byte, and whenever
the suffix is nonempty it carries the line's final byte (the terminator,
when the line has one); a pattern matching the terminator itself can
instead leave an empty suffix with the terminator inside the matched
text. -/
theorem c3_split_is_concat_lossless (p : Pattern) (line a b c : Str)
    (h : highlight p line = some (a, b, c)) :
    a ++ b ++ c = line ∧ (c ≠ [] → c.getLast? = line.getLast?) := by
  unfold highlight at h
  cases hf : p.find line with
  | none => rw [hf] at h; exact absurd h (by simp)
  | some ij =>
    obtain ⟨i, j⟩ := ij
    rw [hf] at h
    simp only [] at h
    cases hg : p.find (line.drop i) with
    | none => rw [hg] at h; exact absurd h (by simp)
    | some km =>
      obtain ⟨k, m⟩ := km
      rw [hg] at h
      simp only [Option.some.injEq, Prod.mk.injEq] at h
      obtain ⟨ha, hb, hc⟩ := h
      subst ha
      subst hb
      subst hc
      refine ⟨?_, ?_⟩
      · rw [List.append_assoc, List.take_append_drop, List.take_append_drop]
      · intro hne
        have h2 := List.getLast?_append_of_ne_nil
          (line.take i ++ (line.drop i).take m) hne
        rw [List.append_assoc, List.take_append_drop,
          List.take_append_drop] at h2
        exact h2.symm

theorem c3_split_is_concat_lossless_witness :
    (['f'] ++ ['o'] ++ ['x', '\n'] : Str) = ['f', 'o', 'x', '\n'] ∧
    ((['x', '\n'] : Str) ≠ [] →
      (['x', '\n'] : Str).getLast? = (['f', 'o', 'x', '\n'] : Str).getLast?) :=
  c3_split_is_concat_lossless (litPat ['o']) ['f', 'o', 'x', '\n']
    ['f'] ['o'] ['x', '\n'] rfl

/-- C4: the no-panic claim fails on the code.  With the regex `\Box` the
line `"fox\n"` is selected by `find_lines` with `invert_match` off (the
pattern matches it, first match span (1,3)), so the first
`pattern.find(&new_line).unwrap()` succeeds; but the second
`pattern.find` — run on the tail `"ox\n"` obtained by `split_off` at the
match start — returns `None`, because at the start of the tail the
non-word-boundary assertion no longer holds, and its `.unwrap()` panics.
`run` on a file holding `"fox\n"` therefore panics (`none`) although the
precondition of the claim is satisfied. -/
theorem c4_highlight_unwrap_can_panic :
    find_lines ['f', 'o', 'x', '\n'] none boxPat false =
      Except.ok [['f', 'o', 'x', '\n']] ∧
    boxPat.find ['f', 'o', 'x', '\n'] = some (1, 3) ∧
    highlight boxPat ['f', 'o', 'x', '\n'] = none ∧
    run wBox cfgBox = none :=
  ⟨rfl, rfl, rfl, rfl⟩

/-- C5: in count mode a successfully scanned file emits exactly one
stdout line, whose payload is the decimal count of the selected lines
followed by a newline, annotated `"<path>:"` (no trailing space) exactly
when `num_files > 1`; an empty file (`d = []`) yields the count line
`"0\n"`. -/
theorem c5_count_mode_one_line (w : World) (nf : Nat) (p : Pattern)
    (inv : Bool) (f d : Str) (hf : f ≠ ['-'])
    (ho : w.openf f = Except.ok ⟨d, none⟩) :
    processEntry w nf p true inv (Except.ok f) =
      some ([⟨if 1 < nf then some (f ++ (":").data) else none,
              natStr (((linesOf d).filter (matchPred p inv)).length)
                ++ ['\n']⟩],
            []) := by
  simp [processEntry, openSrc, hf, ho, find_lines,
    findLinesAux_none_eq_filter, linesOf]

theorem c5_count_mode_one_line_witness :
    processEntry wEmpty 1 (litPat ['x']) true false (Except.ok ['b']) =
      some ([⟨if 1 < 1 then some (['b'] ++ (":").data) else none,
              natStr (((linesOf []).filter
                (matchPred (litPat ['x']) false)).length) ++ ['\n']⟩],
            []) :=
  c5_count_mode_one_line wEmpty 1 (litPat ['x']) false ['b'] []
    (by decide) rfl

/-- A path outcome that fails (at resolve, open, or scan stage) yields no
stdout, exactly one stderr line, and no panic. -/
theorem processEntry_of_fails (w : World) (nf : Nat) (p : Pattern)
    (cnt inv : Bool) (e : Except Str Str)
    (h : entryFails w p inv e = true) :
    processEntry w nf p cnt inv e = some ([], [errLineOf w p inv e]) := by
  cases e with
  | error e' => rfl
  | ok f =>
    simp only [entryFails] at h
    simp only [processEntry, errLineOf]
    cases ho : openSrc w f with
    | error e' => rfl
    | ok s =>
      simp only []
      cases hs : find_lines s.data s.err p inv with
      | error e' => rfl
      | ok ms =>
        rw [ho] at h
        simp only [] at h
        rw [hs] at h
        simp at h

/-- When every outcome fails, the loop reports each failure to stderr in
order and produces no stdout and no panic. -/
theorem runLoop_all_fail (w : World) (nf : Nat) (p : Pattern)
    (cnt inv : Bool) :
    ∀ es : List (Except Str Str),
      (∀ e ∈ es, entryFails w p inv e = true) →
      runLoop w nf p cnt inv es =
        some ([], es.map (errLineOf w p inv)) := by
  intro es
  induction es with
  | nil => intro _; rfl
  | cons e rest ih =>
    intro h
    have h1 : entryFails w p inv e = true := h e (List.mem_cons_self e rest)
    have h2 := ih fun x hx => h x (List.mem_cons_of_mem e hx)
    simp [runLoop, processEntry_of_fails w nf p cnt inv e h1, h2]

/-- C7: `run` returns success however many path outcomes, opens, or
scans fail: when every outcome fails, each failure is written to the
error channel, in order, processing continues through the whole outcome
list, and the result is still success (no panic, `Ok(())`). -/
theorem c7_run_success_despite_failures (w : World) (cfg : Config)
    (h : ∀ e ∈ find_files w cfg.files cfg.recursive,
        entryFails w cfg.pattern cfg.invert_match e = true) :
    run w cfg = some ([], (find_files w cfg.files cfg.recursive).map
      (errLineOf w cfg.pattern cfg.invert_match)) := by
  unfold run
  exact runLoop_all_fail w (find_files w cfg.files cfg.recursive).length
    cfg.pattern cfg.count cfg.invert_match
    (find_files w cfg.files cfg.recursive) h

theorem c7_run_success_despite_failures_witness :
    run wDir cfgDirs = some ([], (find_files wDir cfgDirs.files
      cfgDirs.recursive).map (errLineOf wDir cfgDirs.pattern
        cfgDirs.invert_match)) :=
  c7_run_success_despite_failures wDir cfgDirs (by decide)

/-- The literal-newline pattern finds nothing in a newline-free string. -/
theorem litFindAux_nl_none :
    ∀ (s : Str) (i : Nat), '\n' ∉ s → litFindAux ['\n'] i s = none := by
  intro s
  induction s with
  | nil => intro i _; rfl
  | cons c cs ih =>
    intro i h
    have hc : ¬('\n' = c ∨ '\n' ∈ cs) := by simpa using h
    push_neg at hc
    have hb : (('\n' : Char) == c) = false := by
      simpa using hc.1
    simp only [litFindAux, List.isPrefixOf, hb, Bool.false_and,
      Bool.false_eq_true, if_false]
    exact ih (i + 1) hc.2

/-- The literal-newline pattern finds a match in any string containing a
newline. -/
theorem litFindAux_nl_some :
    ∀ (s : Str) (i : Nat), '\n' ∈ s →
      (litFindAux ['\n'] i s).isSome = true := by
  intro s
  induction s with
  | nil => intro i h; simp at h
  | cons c cs ih =>
    intro i h
    by_cases hc : c = '\n'
    · subst hc
      simp [litFindAux, List.isPrefixOf]
    · have hmem : '\n' ∈ cs := by
        rcases List.mem_cons.mp h with h1 | h1
        · exact absurd h1.symm hc
        · exact h1
      have hb : (('\n' : Char) == c) = false := by
        simp
        exact fun hh => hc hh.symm
      simp only [litFindAux, List.isPrefixOf, hb, Bool.false_and,
        Bool.false_eq_true, if_false]
      exact ih (i + 1) hmem

/-- A newline-free chunk followed by a newline is a single line of the
stream. -/
theorem splitLinesAux_no_nl :
    ∀ (xs cur : Str), '\n' ∉ xs →
      splitLinesAux cur (xs ++ ['\n']) = [cur.reverse ++ xs ++ ['\n']] := by
  intro xs
  induction xs with
  | nil => intro cur _; simp [splitLinesAux]
  | cons a as ih =>
    intro cur h
    have hc : ¬('\n' = a ∨ '\n' ∈ as) := by simpa using h
    push_neg at hc
    have ha : ¬(a = '\n') := fun hh => hc.1 hh.symm
    simp only [List.cons_append, splitLinesAux, if_neg ha, List.append_eq]
    rw [ih (a :: cur) hc.2]
    simp [List.append_assoc]

/-- C9: the match predicate is evaluated on the line string including its
trailing terminator, and the stored line retains it: a pattern matching
only the newline character selects the line `xs ++ "\n"` and stores it
with its terminator, although the terminator-stripped content `xs` does
not match the pattern. -/
theorem c9_terminator_included_in_match (xs : Str) (h : '\n' ∉ xs) :
    find_lines (xs ++ ['\n']) none (litPat ['\n']) false =
      Except.ok [xs ++ ['\n']] ∧
    (litPat ['\n']).is_match xs = false := by
  constructor
  · rw [find_lines, findLinesAux_none_eq_filter]
    rw [splitLinesAux_no_nl xs [] h]
    simp [matchPred, Pattern.is_match, litPat,
      litFindAux_nl_some (xs ++ ['\n']) 0 (by simp)]
  · simp [Pattern.is_match, litPat, litFindAux_nl_none xs 0 h]

theorem c9_terminator_included_in_match_witness :
    find_lines (['f', 'o', 'x'] ++ ['\n']) none (litPat ['\n']) false =
      Except.ok [['f', 'o', 'x'] ++ ['\n']] ∧
    (litPat ['\n']).is_match ['f', 'o', 'x'] = false :=
  c9_terminator_included_in_match ['f', 'o', 'x'] (by decide)

end Grepr
